import Mathlib

/-!
A shallow embedding of `report.py`, a volleyball tournament report generator.

The embedding translates the pure computational core of the program:

* character/string helpers modelling Python `str.strip`, `str.lower`,
  substring containment (`in`), and `int(...)` conversion (ASCII model);
* `_parse_int` and `_parse_record` (the regex helpers);
* `parse_date` (strict `YYYY-MM-DD` parsing via `date.fromisoformat`,
  modelled per its documented contract and the code's own error message
  "Use YYYY-MM-DD."), together with `date.isoformat`;
* the `TournamentResult` / `ClubSummary` data model with `win_pct`,
  `average_finish` (Python floats are modelled by exact rationals);
* `ReportGenerator.determine_weekend` (calendar dates modelled by their
  proleptic-Gregorian ordinal numbers, as in Python `date.toordinal`;
  `weekday()` is Monday = 0, so `weekday o = (o + 6) % 7`);
* `ReportGenerator.rank_clubs` (Python `sorted`, a stable merge sort on
  the tuple key, is modelled by `List.mergeSort` on a lexicographic key);
* `extract_results_from_tables` with `_index_for`, and the CSV row
  loader/writer from `load_results` / `scrape_vstar_pages` (modelled at
  the level of cell strings; the `csv` module round-trips cells).
-/

/-- Python whitespace test for `str.strip` / regex `\s` (ASCII model):
space, tab, newline, carriage return, vertical tab, form feed. -/
def isPySpace (c : Char) : Bool :=
  c.toNat = 32 || c.toNat = 9 || c.toNat = 10 || c.toNat = 13 ||
    c.toNat = 11 || c.toNat = 12

/-- ASCII decimal digit test (regex `\d`, `fromisoformat` digit check). -/
def isDig (c : Char) : Bool :=
  48 ≤ c.toNat && c.toNat ≤ 57

/-- Numeric value of a digit character. -/
def digitVal (c : Char) : ℕ :=
  c.toNat - 48

/-- The digit character for a value below ten. -/
def digitChar10 (d : ℕ) : Char :=
  Char.ofNat (48 + d)

/-- Strip `isPySpace` characters from both ends, as Python `str.strip()`. -/
def stripList (cs : List Char) : List Char :=
  ((cs.dropWhile isPySpace).reverse.dropWhile isPySpace).reverse

/-- Python `str.strip()` on strings. -/
def pyStrip (s : String) : String :=
  ⟨stripList s.data⟩

/-- Python `str.lower()` (ASCII model). -/
def lowerStr (s : String) : String :=
  ⟨s.data.map Char.toLower⟩

/-- Does the second list start with the first? -/
def leadsWith : List Char → List Char → Bool
  | [], _ => true
  | _ :: _, [] => false
  | a :: as, b :: bs => a == b && leadsWith as bs

/-- Does `l` contain `needle` as a contiguous run? -/
def hasInfix (needle : List Char) : List Char → Bool
  | [] => needle.isEmpty
  | c :: rest => leadsWith needle (c :: rest) || hasInfix needle rest

/-- Python `needle in hay` substring containment. -/
def strContains (hay needle : String) : Bool :=
  hasInfix needle.data hay.data

/-- Base-ten value of a digit-character list, most significant first. -/
def digitsVal (cs : List Char) : ℕ :=
  cs.foldl (fun a c => 10 * a + digitVal c) 0

/-- Parse a non-empty all-digit character list; `none` otherwise. -/
def parseDigits (cs : List Char) : Option ℕ :=
  if !cs.isEmpty && cs.all isDig then some (digitsVal cs) else none

/-- Python `int(s)` on decimal strings: optional surrounding whitespace,
optional sign, then digits (ASCII model, digit-group underscores omitted). -/
def pyInt (s : String) : Option ℤ :=
  match stripList s.data with
  | [] => none
  | c :: rest =>
    if c = '-' then (parseDigits rest).map (fun n : ℕ => -(n : ℤ))
    else if c = '+' then (parseDigits rest).map (fun n : ℕ => (n : ℤ))
    else (parseDigits (c :: rest)).map (fun n : ℕ => (n : ℤ))

/-- Decimal digit characters of `n`, most significant first, as Python
`str` on a natural number. -/
def natStr (n : ℕ) : List Char :=
  if n = 0 then ['0'] else ((Nat.digits 10 n).map digitChar10).reverse

/-- Python `str` on an integer. -/
def intStr (n : ℤ) : String :=
  if n < 0 then ⟨'-' :: natStr n.natAbs⟩ else ⟨natStr n.natAbs⟩

/-- First maximal run of digit characters, as `re.findall(r"\d+", ·)[0]`. -/
def firstDigitRun : List Char → Option (List Char)
  | [] => none
  | c :: rest =>
    if isDig c then some (c :: rest.takeWhile isDig) else firstDigitRun rest

/-- `_parse_int`: value of the first digit run anywhere in the string. -/
def parseIntFirst (s : String) : Option ℕ :=
  (firstDigitRun s.data).map digitsVal

/-- Attempt the `_parse_record` pattern — digits, optional whitespace, a
hyphen or slash, optional whitespace, digits — anchored at the head of the
character list.  Greedy maximal munch coincides with the regex semantics
here because no backtracking can succeed. -/
def recordAt (cs : List Char) : Option (ℕ × ℕ) :=
  let ds := cs.takeWhile isDig
  if ds.isEmpty then none
  else
    let rest1 := (cs.drop ds.length).dropWhile isPySpace
    match rest1 with
    | [] => none
    | sep :: rest2 =>
      if sep = '-' || sep = '/' then
        let ds2 := (rest2.dropWhile isPySpace).takeWhile isDig
        if ds2.isEmpty then none else some (digitsVal ds, digitsVal ds2)
      else none

/-- Leftmost match of the `_parse_record` pattern, as `re.search`. -/
def searchRecord : List Char → Option (ℕ × ℕ)
  | [] => none
  | c :: rest =>
    match recordAt (c :: rest) with
    | some p => some p
    | none => searchRecord rest

/-- `_parse_record`: first `wins-losses` (or slash) pair in the string. -/
def parseRecord (s : String) : Option (ℕ × ℕ) :=
  searchRecord s.data

/-- A calendar date, as Python `datetime.date` field values. -/
structure Date where
  year : ℕ
  month : ℕ
  day : ℕ
deriving DecidableEq, Repr

/-- Gregorian leap-year test. -/
def isLeap (y : ℕ) : Bool :=
  y % 4 = 0 && (y % 100 ≠ 0 || y % 400 = 0)

/-- Number of days in a month of a given year. -/
def daysInMonth (y m : ℕ) : ℕ :=
  if m = 2 then (if isLeap y then 29 else 28)
  else if m = 4 || m = 6 || m = 9 || m = 11 then 30
  else 31

/-- The validity invariant `datetime.date` enforces on construction
(`MINYEAR = 1`, `MAXYEAR = 9999`). -/
def Date.Valid (d : Date) : Prop :=
  1 ≤ d.year ∧ d.year ≤ 9999 ∧ 1 ≤ d.month ∧ d.month ≤ 12 ∧
    1 ≤ d.day ∧ d.day ≤ daysInMonth d.year d.month

instance (d : Date) : Decidable d.Valid := by
  unfold Date.Valid; infer_instance

/-- Two zero-padded digits, as `%02d` for values below 100. -/
def pad2 (n : ℕ) : List Char :=
  [digitChar10 (n / 10), digitChar10 (n % 10)]

/-- Four zero-padded digits, as `%04d` for values below 10000. -/
def pad4 (n : ℕ) : List Char :=
  [digitChar10 (n / 1000), digitChar10 (n / 100 % 10),
    digitChar10 (n / 10 % 10), digitChar10 (n % 10)]

/-- `date.isoformat()`: strict `YYYY-MM-DD` rendering. -/
def isoformat (d : Date) : String :=
  ⟨pad4 d.year ++ '-' :: pad2 d.month ++ '-' :: pad2 d.day⟩

/-- `datetime.date(y, m, d)`: constructs when valid, raises otherwise. -/
def mkDate (y m d : ℕ) : Option Date :=
  if Date.Valid ⟨y, m, d⟩ then some ⟨y, m, d⟩ else none

/-- `parse_date` / `date.fromisoformat`: accept exactly the ten-character
`YYYY-MM-DD` layout denoting a constructible `datetime.date`; anything
else is rejected (the `ArgumentTypeError` branch is `none`). -/
def parseDate (s : String) : Option Date :=
  match s.data with
  | [y1, y2, y3, y4, h1, m1, m2, h2, d1, d2] =>
    if h1 = '-' ∧ h2 = '-' ∧ isDig y1 ∧ isDig y2 ∧ isDig y3 ∧ isDig y4 ∧
        isDig m1 ∧ isDig m2 ∧ isDig d1 ∧ isDig d2 then
      mkDate (1000 * digitVal y1 + 100 * digitVal y2 + 10 * digitVal y3 + digitVal y4)
        (10 * digitVal m1 + digitVal m2)
        (10 * digitVal d1 + digitVal d2)
    else none
  | _ => none

/-- `TournamentResult`: one club result row (Python ints are `ℤ`). -/
structure TournamentResult where
  date : Date
  club : String
  tournament : String
  finish : Option ℤ
  wins : ℤ
  losses : ℤ
deriving DecidableEq, Repr

/-- `ClubSummary`: aggregate of one club within a window. -/
structure ClubSummary where
  club : String
  tournaments : ℤ
  wins : ℤ
  losses : ℤ
  finishes : List ℤ
deriving DecidableEq, Repr

/-- `ClubSummary.win_pct`: `wins / games` when games is nonzero, else `0.0`
(Python float arithmetic modelled by exact rationals). -/
def winPct (s : ClubSummary) : ℚ :=
  if s.wins + s.losses = 0 then 0
  else (s.wins : ℚ) / ((s.wins : ℚ) + (s.losses : ℚ))

/-- `ClubSummary.average_finish`: mean of the finishes, absent when empty. -/
def avgFinish (s : ClubSummary) : Option ℚ :=
  match s.finishes with
  | [] => none
  | _ => some ((s.finishes.sum : ℚ) / (s.finishes.length : ℚ))

/-- The third sort-key component: `average_finish` with absence mapped to
`float("inf")`, modelled as the top element of `WithTop ℚ`. -/
def avgKey (s : ClubSummary) : WithTop ℚ :=
  match avgFinish s with
  | none => ⊤
  | some q => (q : WithTop ℚ)

/-- The `rank_clubs` sort key `(-win_pct, -wins, avg_finish, club)`, with
Python tuple comparison modelled by the lexicographic product order. -/
def sortKey (s : ClubSummary) : ℚ ×ₗ ℤ ×ₗ (WithTop ℚ) ×ₗ String :=
  toLex (-(winPct s), toLex (-s.wins, toLex (avgKey s, s.club)))

/-- The ranking order induced by the sort key. -/
def keyLE (a b : ClubSummary) : Prop :=
  sortKey a ≤ sortKey b

instance (a b : ClubSummary) : Decidable (keyLE a b) := by
  unfold keyLE; infer_instance

/-- `ReportGenerator.rank_clubs`: Python `sorted` (a stable merge sort)
with the composite key. -/
def rank_clubs (clubs : List ClubSummary) : List ClubSummary :=
  clubs.mergeSort (fun a b => decide (keyLE a b))

/-- Python `weekday()` of a date given by its `toordinal` number:
Monday is 0 and ordinal 1 (0001-01-01) is a Monday. -/
def weekdayOf (d : ℤ) : ℤ :=
  (d + 6) % 7

/-- Python `max` over a list of date ordinals (the empty-list value 0 is
never used: `ReportGenerator.__init__` rejects empty result lists). -/
def listMax : List ℤ → ℤ
  | [] => 0
  | d :: rest => rest.foldl max d

/-- `ReportGenerator.determine_weekend` over date ordinals: a given start
without an end gets `start + 1 day`; a given start and end pass through;
otherwise the window is the most recent Saturday on or before the latest
result date, plus the following day.  (`datetime.date` objects are always
truthy, so the Python `if start` tests are presence tests.) -/
def determineWeekend (start0 end0 : Option ℤ) (dates : List ℤ) : ℤ × ℤ :=
  let end1 : Option ℤ :=
    match start0, end0 with
    | some s, none => some (s + 1)
    | _, _ => end0
  match start0, end1 with
  | some s, some e => (s, e)
  | _, _ =>
    let latest := listMax dates
    let daysSinceSaturday := (weekdayOf latest - 5) % 7
    let saturday := latest - daysSinceSaturday
    (saturday, saturday + 1)

/-- `_index_for`: index of the first header whose lowercased text contains
any of the candidate substrings. -/
def indexFor (headers : List String) (candidates : List String) : Option ℕ :=
  headers.findIdx? (fun h => candidates.any (fun c => strContains (lowerStr h) c))

/-- Row cell access `row[idx]`; every index passed comes from the header
list and the row is at least header-length, so the default is never hit. -/
def cell (row : List String) (i : ℕ) : String :=
  row.getD i ""

/-- The tournament label of a row: the tournament/event/division cell when
present and non-empty after trimming, else the fallback page title. -/
def tournamentOf (fallback : String) (tournIdx : Option ℕ)
    (row : List String) : String :=
  match tournIdx with
  | none => fallback
  | some i => if pyStrip (cell row i) = "" then fallback else pyStrip (cell row i)

/-- The value read directly from one column: `_parse_int` of the cell when
the column was located, else undetermined. -/
def directOf (idx : Option ℕ) (row : List String) : Option ℤ :=
  match idx with
  | none => none
  | some i => (parseIntFirst (cell row i)).map (fun n : ℕ => (n : ℤ))

/-- The record-column fallback of the row loop: when wins or losses is
undetermined and a record column exists whose cell matches the
two-integer pattern, both values are replaced by the parsed pair. -/
def resolveWL (recordIdx : Option ℕ) (row : List String)
    (wins0 losses0 : Option ℤ) : Option ℤ × Option ℤ :=
  if wins0.isNone || losses0.isNone then
    match recordIdx with
    | some i =>
      match parseRecord (cell row i) with
      | some (a, b) => (some (a : ℤ), some (b : ℤ))
      | none => (wins0, losses0)
    | none => (wins0, losses0)
  else (wins0, losses0)

/-- The body of the row loop of `extract_results_from_tables`: `none` for
a skipped row (short row, unparsable date, empty club), `some` for an
emitted record; undetermined wins/losses default to zero. -/
def rowStep (fallback : String) (ncols : ℕ) (dateIdx clubIdx : ℕ)
    (tournIdx finishIdx winsIdx lossesIdx recordIdx : Option ℕ)
    (row : List String) : Option TournamentResult :=
  if row.length < ncols then none
  else
    match parseDate (cell row dateIdx) with
    | none => none
    | some date =>
      if pyStrip (cell row clubIdx) = "" then none
      else
        some { date := date, club := pyStrip (cell row clubIdx),
               tournament := tournamentOf fallback tournIdx row,
               finish := directOf finishIdx row,
               wins := (resolveWL recordIdx row (directOf winsIdx row)
                 (directOf lossesIdx row)).1.getD 0,
               losses := (resolveWL recordIdx row (directOf winsIdx row)
                 (directOf lossesIdx row)).2.getD 0 }

/-- One iteration of the table loop of `extract_results_from_tables`:
empty headers or rows are skipped, the column lookups run, a table
without date and club anchors is skipped, and each row runs `rowStep`. -/
def extractTable (fallback : String)
    (t : List String × List (List String)) : List TournamentResult :=
  if t.1.isEmpty || t.2.isEmpty then []
  else
    match indexFor t.1 ["date"], indexFor t.1 ["club", "team"] with
    | some di, some ci =>
      t.2.filterMap
        (rowStep fallback t.1.length di ci
          (indexFor t.1 ["tournament", "event", "division"])
          (indexFor t.1 ["finish", "place", "rank"])
          (indexFor t.1 ["wins", "win", "w"])
          (indexFor t.1 ["losses", "loss", "l"])
          (indexFor t.1 ["record", "win-loss", "w-l"]))
    | _, _ => []

/-- `extract_results_from_tables`: concatenation over the parsed tables. -/
def extractResultsFromTables (tables : List (List String × List (List String)))
    (fallback : String) : List TournamentResult :=
  (tables.map (extractTable fallback)).flatten

/-- One CSV data row, as the cell strings `csv.DictReader` delivers for
the required columns. -/
structure CsvRow where
  date : String
  club : String
  tournament : String
  finish : String
  wins : String
  losses : String
deriving DecidableEq, Repr

/-- The finish cell of `load_results`: a falsy (empty) cell is `None`,
otherwise `int(...)` runs and its failure raises. -/
def loadFinish (s : String) : Option (Option ℤ) :=
  if s = "" then some none else (pyInt s).map some

/-- The body of the row loop of `load_results`: `parse_date` and `int`
failures raise, aborting the whole load, hence `Option` at row level. -/
def loadRow (row : CsvRow) : Option TournamentResult :=
  match parseDate row.date with
  | none => none
  | some d =>
    match loadFinish row.finish, pyInt row.wins, pyInt row.losses with
    | some f, some w, some l =>
      some { date := d, club := pyStrip row.club,
             tournament := pyStrip row.tournament, finish := f,
             wins := w, losses := l }
    | _, _, _ => none

/-- `load_results` over the data rows: any row failure aborts the load. -/
def loadRows : List CsvRow → Option (List TournamentResult)
  | [] => some []
  | r :: rest =>
    match loadRow r, loadRows rest with
    | some t, some ts => some (t :: ts)
    | _, _ => none

/-- The row `scrape_vstar_pages` writes for one record (cell level;
the `csv` module round-trips cell strings). -/
def writeRow (r : TournamentResult) : CsvRow :=
  { date := isoformat r.date, club := r.club, tournament := r.tournament,
    finish := (match r.finish with | none => "" | some n => intStr n),
    wins := intStr r.wins, losses := intStr r.losses }

theorem isDig_iff {c : Char} : isDig c = true ↔ 48 ≤ c.toNat ∧ c.toNat ≤ 57 := by
  simp [isDig]

theorem digitVal_lt_ten {c : Char} (h : isDig c = true) : digitVal c < 10 := by
  rw [isDig_iff] at h
  unfold digitVal
  omega

theorem digitChar10_digitVal {c : Char} (h : isDig c = true) :
    digitChar10 (digitVal c) = c := by
  rw [isDig_iff] at h
  unfold digitChar10 digitVal
  rw [show 48 + (c.toNat - 48) = c.toNat by omega, Char.ofNat_toNat]

theorem digitVal_digitChar10 {d : ℕ} (h : d < 10) :
    digitVal (digitChar10 d) = d := by
  interval_cases d <;> decide

theorem isDig_digitChar10 {d : ℕ} (h : d < 10) : isDig (digitChar10 d) = true := by
  interval_cases d <;> decide

theorem isDig_ne_dash {c : Char} (h : isDig c = true) : c ≠ '-' := by
  intro hc
  subst hc
  exact absurd h (by decide)

theorem isDig_ne_plus {c : Char} (h : isDig c = true) : c ≠ '+' := by
  intro hc
  subst hc
  exact absurd h (by decide)

theorem isPySpace_eq_false_of_isDig {c : Char} (h : isDig c = true) :
    isPySpace c = false := by
  rw [isDig_iff] at h
  simp [isPySpace]
  omega

theorem dropWhile_eq_self_of_all {p : Char → Bool} :
    ∀ cs : List Char, (∀ c ∈ cs, p c = false) → cs.dropWhile p = cs
  | [], _ => rfl
  | c :: rest, h => by
    rw [List.dropWhile_cons, h c (by simp)]
    simp

theorem stripList_eq_self {cs : List Char}
    (h : ∀ c ∈ cs, isPySpace c = false) : stripList cs = cs := by
  unfold stripList
  rw [dropWhile_eq_self_of_all cs h]
  rw [dropWhile_eq_self_of_all cs.reverse (by simpa using h)]
  exact List.reverse_reverse cs

theorem foldl_map_digitChar10 (L : List ℕ) (h : ∀ d ∈ L, d < 10) (a : ℕ) :
    ((L.map digitChar10).reverse).foldl (fun x c => 10 * x + digitVal c) a
      = a * 10 ^ L.length + Nat.ofDigits 10 L := by
  induction L generalizing a with
  | nil => simp [Nat.ofDigits]
  | cons d L ih =>
    simp only [List.map_cons, List.reverse_cons, List.foldl_append,
      List.foldl_cons, List.foldl_nil]
    rw [ih (fun x hx => h x (List.mem_cons_of_mem d hx)) a]
    rw [digitVal_digitChar10 (h d (List.mem_cons_self d L))]
    rw [Nat.ofDigits_cons]
    simp only [List.length_cons]
    ring

theorem digitsVal_natStr (n : ℕ) : digitsVal (natStr n) = n := by
  unfold natStr
  by_cases h : n = 0
  · subst h
    decide
  · rw [if_neg h]
    unfold digitsVal
    rw [foldl_map_digitChar10 (Nat.digits 10 n)
      (fun d hd => Nat.digits_lt_base (by norm_num) hd) 0]
    simp [Nat.ofDigits_digits]

theorem natStr_all_isDig (n : ℕ) : ∀ c ∈ natStr n, isDig c = true := by
  unfold natStr
  by_cases h : n = 0
  · subst h
    intro c hc
    simp at hc
    subst hc
    decide
  · rw [if_neg h]
    intro c hc
    rw [List.mem_reverse, List.mem_map] at hc
    obtain ⟨d, hd, rfl⟩ := hc
    exact isDig_digitChar10 (Nat.digits_lt_base (by norm_num) hd)

theorem natStr_ne_nil (n : ℕ) : natStr n ≠ [] := by
  unfold natStr
  by_cases h : n = 0
  · simp [h]
  · rw [if_neg h]
    simp only [ne_eq, List.reverse_eq_nil_iff, List.map_eq_nil_iff]
    exact Nat.digits_ne_nil_iff_ne_zero.mpr h

theorem parseDigits_natStr (n : ℕ) : parseDigits (natStr n) = some n := by
  unfold parseDigits
  rw [if_pos, digitsVal_natStr]
  rw [Bool.and_eq_true]
  constructor
  · simpa using natStr_ne_nil n
  · rw [List.all_eq_true]
    exact natStr_all_isDig n

theorem stripList_natStr (n : ℕ) : stripList (natStr n) = natStr n :=
  stripList_eq_self (fun c hc => isPySpace_eq_false_of_isDig (natStr_all_isDig n c hc))

theorem pyInt_intStr (n : ℤ) : pyInt (intStr n) = some n := by
  unfold intStr
  by_cases h : n < 0
  · rw [if_pos h]
    unfold pyInt
    show (match stripList ('-' :: natStr n.natAbs) with
      | [] => none
      | c :: rest =>
        if c = '-' then (parseDigits rest).map (fun n : ℕ => -(n : ℤ))
        else if c = '+' then (parseDigits rest).map (fun n : ℕ => (n : ℤ))
        else (parseDigits (c :: rest)).map (fun n : ℕ => (n : ℤ))) = some n
    rw [show stripList ('-' :: natStr n.natAbs) = '-' :: natStr n.natAbs from
      stripList_eq_self (by
        intro c hc
        rcases List.mem_cons.mp hc with rfl | hc
        · decide
        · exact isPySpace_eq_false_of_isDig (natStr_all_isDig _ c hc))]
    show (if ('-' : Char) = '-' then
        (parseDigits (natStr n.natAbs)).map (fun n : ℕ => -(n : ℤ))
      else if ('-' : Char) = '+' then
        (parseDigits (natStr n.natAbs)).map (fun n : ℕ => (n : ℤ))
      else (parseDigits ('-' :: natStr n.natAbs)).map (fun n : ℕ => (n : ℤ)))
      = some n
    rw [if_pos rfl, parseDigits_natStr]
    show some (-(n.natAbs : ℤ)) = some n
    congr 1
    omega
  · rw [if_neg h]
    unfold pyInt
    show (match stripList (natStr n.natAbs) with
      | [] => none
      | c :: rest =>
        if c = '-' then (parseDigits rest).map (fun n : ℕ => -(n : ℤ))
        else if c = '+' then (parseDigits rest).map (fun n : ℕ => (n : ℤ))
        else (parseDigits (c :: rest)).map (fun n : ℕ => (n : ℤ))) = some n
    rw [stripList_natStr]
    obtain ⟨c, rest, hcr⟩ : ∃ c rest, natStr n.natAbs = c :: rest := by
      cases hn : natStr n.natAbs with
      | nil => exact absurd hn (natStr_ne_nil _)
      | cons c rest => exact ⟨c, rest, rfl⟩
    have hdig : isDig c = true := natStr_all_isDig _ c (by rw [hcr]; simp)
    rw [hcr]
    show (if c = '-' then (parseDigits rest).map (fun n : ℕ => -(n : ℤ))
      else if c = '+' then (parseDigits rest).map (fun n : ℕ => (n : ℤ))
      else (parseDigits (c :: rest)).map (fun n : ℕ => (n : ℤ))) = some n
    rw [if_neg (isDig_ne_dash hdig), if_neg (isDig_ne_plus hdig)]
    rw [← hcr, parseDigits_natStr]
    show some ((n.natAbs : ℕ) : ℤ) = some n
    congr 1
    omega

theorem daysInMonth_le (y m : ℕ) : daysInMonth y m ≤ 31 := by
  unfold daysInMonth
  split_ifs <;> omega

theorem mkDate_of_valid {y m d : ℕ} (h : Date.Valid ⟨y, m, d⟩) :
    mkDate y m d = some ⟨y, m, d⟩ :=
  if_pos h

theorem mkDate_sound {y m d : ℕ} {dte : Date} (h : mkDate y m d = some dte) :
    dte = ⟨y, m, d⟩ ∧ dte.Valid := by
  unfold mkDate at h
  split at h
  · next hv =>
    obtain rfl := Option.some.inj h
    exact ⟨rfl, hv⟩
  · exact absurd h (by simp)

theorem valid_fields {y m d : ℕ} (h : Date.Valid ⟨y, m, d⟩) :
    1 ≤ y ∧ y ≤ 9999 ∧ 1 ≤ m ∧ m ≤ 12 ∧ 1 ≤ d ∧ d ≤ 31 := by
  obtain ⟨h1, h2, h3, h4, h5, h6⟩ := h
  have := daysInMonth_le y m
  simp only at h1 h2 h3 h4 h5 h6
  refine ⟨h1, h2, h3, h4, h5, ?_⟩
  omega

theorem parseDate_isoformat (d : Date) (h : d.Valid) :
    parseDate (isoformat d) = some d := by
  obtain ⟨y, m, dd⟩ := d
  obtain ⟨hy1, hy2, hm1, hm2, hd1, hd2⟩ := valid_fields h
  have h1 : y / 1000 < 10 := by omega
  have h2 : y / 100 % 10 < 10 := by omega
  have h3 : y / 10 % 10 < 10 := by omega
  have h4 : y % 10 < 10 := by omega
  have h5 : m / 10 < 10 := by omega
  have h6 : m % 10 < 10 := by omega
  have h7 : dd / 10 < 10 := by omega
  have h8 : dd % 10 < 10 := by omega
  show (if ('-' : Char) = '-' ∧ ('-' : Char) = '-' ∧
      isDig (digitChar10 (y / 1000)) = true ∧
      isDig (digitChar10 (y / 100 % 10)) = true ∧
      isDig (digitChar10 (y / 10 % 10)) = true ∧
      isDig (digitChar10 (y % 10)) = true ∧
      isDig (digitChar10 (m / 10)) = true ∧
      isDig (digitChar10 (m % 10)) = true ∧
      isDig (digitChar10 (dd / 10)) = true ∧
      isDig (digitChar10 (dd % 10)) = true then
      mkDate (1000 * digitVal (digitChar10 (y / 1000)) +
          100 * digitVal (digitChar10 (y / 100 % 10)) +
          10 * digitVal (digitChar10 (y / 10 % 10)) +
          digitVal (digitChar10 (y % 10)))
        (10 * digitVal (digitChar10 (m / 10)) + digitVal (digitChar10 (m % 10)))
        (10 * digitVal (digitChar10 (dd / 10)) + digitVal (digitChar10 (dd % 10)))
    else none) = some ⟨y, m, dd⟩
  rw [if_pos ⟨rfl, rfl, isDig_digitChar10 h1, isDig_digitChar10 h2,
    isDig_digitChar10 h3, isDig_digitChar10 h4, isDig_digitChar10 h5,
    isDig_digitChar10 h6, isDig_digitChar10 h7, isDig_digitChar10 h8⟩]
  rw [show 1000 * digitVal (digitChar10 (y / 1000)) +
      100 * digitVal (digitChar10 (y / 100 % 10)) +
      10 * digitVal (digitChar10 (y / 10 % 10)) +
      digitVal (digitChar10 (y % 10)) = y by
    rw [digitVal_digitChar10 h1, digitVal_digitChar10 h2,
      digitVal_digitChar10 h3, digitVal_digitChar10 h4]
    omega]
  rw [show 10 * digitVal (digitChar10 (m / 10)) +
      digitVal (digitChar10 (m % 10)) = m by
    rw [digitVal_digitChar10 h5, digitVal_digitChar10 h6]
    omega]
  rw [show 10 * digitVal (digitChar10 (dd / 10)) +
      digitVal (digitChar10 (dd % 10)) = dd by
    rw [digitVal_digitChar10 h7, digitVal_digitChar10 h8]
    omega]
  exact mkDate_of_valid h

theorem parseDate_sound {s : String} {d : Date} (h : parseDate s = some d) :
    d.Valid ∧ s = isoformat d := by
  obtain ⟨cs⟩ := s
  unfold parseDate at h
  split at h
  · next y1 y2 y3 y4 c1 m1 m2 c2 dd1 dd2 heq =>
    split at h
    · next hc =>
      obtain ⟨hdash1, hdash2, hg1, hg2, hg3, hg4, hg5, hg6, hg7, hg8⟩ := hc
      obtain ⟨rfl, hv⟩ := mkDate_sound h
      have b1 := digitVal_lt_ten hg1
      have b2 := digitVal_lt_ten hg2
      have b3 := digitVal_lt_ten hg3
      have b4 := digitVal_lt_ten hg4
      have b5 := digitVal_lt_ten hg5
      have b6 := digitVal_lt_ten hg6
      have b7 := digitVal_lt_ten hg7
      have b8 := digitVal_lt_ten hg8
      refine ⟨hv, ?_⟩
      have hcs : cs = [y1, y2, y3, y4, c1, m1, m2, c2, dd1, dd2] := heq
      subst hcs
      subst hdash1
      subst hdash2
      have e1 : digitChar10 ((1000 * digitVal y1 + 100 * digitVal y2 +
          10 * digitVal y3 + digitVal y4) / 1000) = y1 := by
        rw [show (1000 * digitVal y1 + 100 * digitVal y2 + 10 * digitVal y3 +
          digitVal y4) / 1000 = digitVal y1 by omega, digitChar10_digitVal hg1]
      have e2 : digitChar10 ((1000 * digitVal y1 + 100 * digitVal y2 +
          10 * digitVal y3 + digitVal y4) / 100 % 10) = y2 := by
        rw [show (1000 * digitVal y1 + 100 * digitVal y2 + 10 * digitVal y3 +
          digitVal y4) / 100 % 10 = digitVal y2 by omega, digitChar10_digitVal hg2]
      have e3 : digitChar10 ((1000 * digitVal y1 + 100 * digitVal y2 +
          10 * digitVal y3 + digitVal y4) / 10 % 10) = y3 := by
        rw [show (1000 * digitVal y1 + 100 * digitVal y2 + 10 * digitVal y3 +
          digitVal y4) / 10 % 10 = digitVal y3 by omega, digitChar10_digitVal hg3]
      have e4 : digitChar10 ((1000 * digitVal y1 + 100 * digitVal y2 +
          10 * digitVal y3 + digitVal y4) % 10) = y4 := by
        rw [show (1000 * digitVal y1 + 100 * digitVal y2 + 10 * digitVal y3 +
          digitVal y4) % 10 = digitVal y4 by omega, digitChar10_digitVal hg4]
      have e5 : digitChar10 ((10 * digitVal m1 + digitVal m2) / 10) = m1 := by
        rw [show (10 * digitVal m1 + digitVal m2) / 10 = digitVal m1 by omega,
          digitChar10_digitVal hg5]
      have e6 : digitChar10 ((10 * digitVal m1 + digitVal m2) % 10) = m2 := by
        rw [show (10 * digitVal m1 + digitVal m2) % 10 = digitVal m2 by omega,
          digitChar10_digitVal hg6]
      have e7 : digitChar10 ((10 * digitVal dd1 + digitVal dd2) / 10) = dd1 := by
        rw [show (10 * digitVal dd1 + digitVal dd2) / 10 = digitVal dd1 by omega,
          digitChar10_digitVal hg7]
      have e8 : digitChar10 ((10 * digitVal dd1 + digitVal dd2) % 10) = dd2 := by
        rw [show (10 * digitVal dd1 + digitVal dd2) % 10 = digitVal dd2 by omega,
          digitChar10_digitVal hg8]
      simp only [isoformat, pad4, pad2, List.cons_append, List.nil_append,
        e1, e2, e3, e4, e5, e6, e7, e8]
    · exact absurd h (by simp)
  · exact absurd h (by simp)

theorem le_foldl_max_init : ∀ (l : List ℤ) (a : ℤ), a ≤ l.foldl max a
  | [], _ => le_refl _
  | b :: l, a => le_trans (le_max_left a b) (le_foldl_max_init l (max a b))

theorem le_foldl_max_of_mem : ∀ {l : List ℤ} {x : ℤ} (a : ℤ), x ∈ l → x ≤ l.foldl max a
  | b :: l, x, a, hx => by
    rcases List.mem_cons.mp hx with rfl | hx
    · exact le_trans (le_max_right a x) (le_foldl_max_init l (max a x))
    · exact le_foldl_max_of_mem (max a b) hx

theorem foldl_max_mem : ∀ (l : List ℤ) (a : ℤ), l.foldl max a = a ∨ l.foldl max a ∈ l
  | [], a => Or.inl rfl
  | b :: l, a => by
    rcases foldl_max_mem l (max a b) with h | h
    · rcases max_choice a b with hm | hm
      · exact Or.inl (by rw [List.foldl_cons, h, hm])
      · exact Or.inr (by rw [List.foldl_cons, h, hm]; exact List.mem_cons_self b l)
    · exact Or.inr (List.mem_cons_of_mem b h)

theorem listMax_mem {dates : List ℤ} (h : dates ≠ []) : listMax dates ∈ dates := by
  cases dates with
  | nil => exact absurd rfl h
  | cons d rest =>
    show List.foldl max d rest ∈ d :: rest
    rcases foldl_max_mem rest d with hm | hm
    · rw [hm]; exact List.mem_cons_self d rest
    · exact List.mem_cons_of_mem d hm

theorem le_listMax {dates : List ℤ} {x : ℤ} (hx : x ∈ dates) : x ≤ listMax dates := by
  cases dates with
  | nil => simp at hx
  | cons d rest =>
    show x ≤ List.foldl max d rest
    rcases List.mem_cons.mp hx with rfl | hx
    · exact le_foldl_max_init rest x
    · exact le_foldl_max_of_mem d hx

theorem keyLE_trans {a b c : ClubSummary} (h1 : keyLE a b) (h2 : keyLE b c) :
    keyLE a c :=
  le_trans h1 h2

theorem keyLE_total (a b : ClubSummary) : keyLE a b ∨ keyLE b a :=
  le_total (sortKey a) (sortKey b)

theorem sortKey_eq_of_antisymm {a b : ClubSummary}
    (h1 : keyLE a b) (h2 : keyLE b a) : sortKey a = sortKey b :=
  le_antisymm h1 h2

theorem club_eq_of_sortKey_eq {a b : ClubSummary} (h : sortKey a = sortKey b) :
    a.club = b.club := by
  unfold sortKey at h
  have h' := (toLex.injective h)
  have h2 := congrArg Prod.snd h'
  have h2' := toLex.injective h2
  have h3 := congrArg Prod.snd h2'
  have h3' := toLex.injective h3
  exact congrArg Prod.snd h3'

theorem keyLE_iff (a b : ClubSummary) :
    keyLE a b ↔ (winPct b < winPct a ∨ (winPct a = winPct b ∧
      (b.wins < a.wins ∨ (a.wins = b.wins ∧
        (avgKey a < avgKey b ∨ (avgKey a = avgKey b ∧ a.club ≤ b.club)))))) := by
  unfold keyLE sortKey
  rw [Prod.Lex.le_iff]
  constructor
  · rintro (hlt | ⟨heq, hrest⟩)
    · exact Or.inl (by simpa using hlt)
    · refine Or.inr ⟨by simpa using heq, ?_⟩
      rw [Prod.Lex.le_iff] at hrest
      rcases hrest with hlt | ⟨heq2, hrest2⟩
      · exact Or.inl (by simpa using hlt)
      · refine Or.inr ⟨by simpa using heq2, ?_⟩
        rw [Prod.Lex.le_iff] at hrest2
        exact hrest2
  · rintro (hlt | ⟨heq, hrest⟩)
    · exact Or.inl (by simpa using hlt)
    · refine Or.inr ⟨by simpa using heq, ?_⟩
      rw [Prod.Lex.le_iff]
      rcases hrest with hlt | ⟨heq2, hrest2⟩
      · exact Or.inl (by simpa using hlt)
      · refine Or.inr ⟨by simpa using heq2, ?_⟩
        rw [Prod.Lex.le_iff]
        exact hrest2

theorem leB_trans : ∀ (a b c : ClubSummary),
    (fun a b => decide (keyLE a b)) a b → (fun a b => decide (keyLE a b)) b c →
    (fun a b => decide (keyLE a b)) a c := by
  intro a b c h1 h2
  simp only [decide_eq_true_eq] at h1 h2 ⊢
  exact keyLE_trans h1 h2

theorem leB_total : ∀ (a b : ClubSummary),
    ((fun a b => decide (keyLE a b)) a b || (fun a b => decide (keyLE a b)) b a) := by
  intro a b
  simp only [Bool.or_eq_true, decide_eq_true_eq]
  exact keyLE_total a b

theorem extractTable_of_no_anchor {headers : List String}
    {rows : List (List String)} (fallback : String)
    (h : indexFor headers ["date"] = none ∨
      indexFor headers ["club", "team"] = none) :
    extractTable fallback (headers, rows) = [] := by
  unfold extractTable
  dsimp only
  split
  · rfl
  · rcases h with h | h
    · rw [h]
    · rw [h]
      cases indexFor headers ["date"] <;> rfl

theorem extractTable_eq_filterMap {headers : List String}
    {rows : List (List String)} (fallback : String) {di ci : ℕ}
    (hd : indexFor headers ["date"] = some di)
    (hc : indexFor headers ["club", "team"] = some ci) :
    extractTable fallback (headers, rows) = rows.filterMap
      (rowStep fallback headers.length di ci
        (indexFor headers ["tournament", "event", "division"])
        (indexFor headers ["finish", "place", "rank"])
        (indexFor headers ["wins", "win", "w"])
        (indexFor headers ["losses", "loss", "l"])
        (indexFor headers ["record", "win-loss", "w-l"])) := by
  unfold extractTable
  split
  · next hguard =>
    simp only [Bool.or_eq_true, List.isEmpty_iff] at hguard
    rcases hguard with hguard | hguard
    · subst hguard
      simp [indexFor] at hd
    · subst hguard
      rfl
  · rw [hd, hc]

theorem rowStep_none_short {fallback : String} {ncols : ℕ} {dateIdx clubIdx : ℕ}
    {tournIdx finishIdx winsIdx lossesIdx recordIdx : Option ℕ}
    {row : List String} (h : row.length < ncols) :
    rowStep fallback ncols dateIdx clubIdx tournIdx finishIdx winsIdx
      lossesIdx recordIdx row = none := by
  unfold rowStep
  rw [if_pos h]

theorem rowStep_none_badDate {fallback : String} {ncols : ℕ}
    {dateIdx clubIdx : ℕ}
    {tournIdx finishIdx winsIdx lossesIdx recordIdx : Option ℕ}
    {row : List String} (h : parseDate (cell row dateIdx) = none) :
    rowStep fallback ncols dateIdx clubIdx tournIdx finishIdx winsIdx
      lossesIdx recordIdx row = none := by
  unfold rowStep
  split
  · rfl
  · rw [h]

theorem rowStep_none_emptyClub {fallback : String} {ncols : ℕ}
    {dateIdx clubIdx : ℕ}
    {tournIdx finishIdx winsIdx lossesIdx recordIdx : Option ℕ}
    {row : List String} (h : pyStrip (cell row clubIdx) = "") :
    rowStep fallback ncols dateIdx clubIdx tournIdx finishIdx winsIdx
      lossesIdx recordIdx row = none := by
  unfold rowStep
  split
  · rfl
  · split <;> simp [h]

theorem directOf_nonneg {idx : Option ℕ} {row : List String} {x : ℤ}
    (h : directOf idx row = some x) : 0 ≤ x := by
  unfold directOf at h
  split at h
  · exact absurd h (by simp)
  · obtain ⟨n, hn, rfl⟩ := Option.map_eq_some'.mp h
    exact Int.natCast_nonneg n

theorem resolveWL_nonneg {recordIdx : Option ℕ} {row : List String}
    {wins0 losses0 : Option ℤ}
    (hw : ∀ x, wins0 = some x → 0 ≤ x) (hl : ∀ x, losses0 = some x → 0 ≤ x) :
    0 ≤ (resolveWL recordIdx row wins0 losses0).1.getD 0 ∧
      0 ≤ (resolveWL recordIdx row wins0 losses0).2.getD 0 := by
  have opt : ∀ (o : Option ℤ), (∀ x, o = some x → 0 ≤ x) → 0 ≤ o.getD 0 := by
    intro o ho
    cases o with
    | none => simp
    | some x => simpa using ho x rfl
  unfold resolveWL
  split
  · split
    · split
      · next a b heq => exact ⟨by simp, by simp⟩
      · exact ⟨opt wins0 hw, opt losses0 hl⟩
    · exact ⟨opt wins0 hw, opt losses0 hl⟩
  · exact ⟨opt wins0 hw, opt losses0 hl⟩

theorem rowStep_some_inv {fallback : String} {ncols : ℕ} {dateIdx clubIdx : ℕ}
    {tournIdx finishIdx winsIdx lossesIdx recordIdx : Option ℕ}
    {row : List String} {r : TournamentResult}
    (h : rowStep fallback ncols dateIdx clubIdx tournIdx finishIdx winsIdx
      lossesIdx recordIdx row = some r) :
    0 ≤ r.wins ∧ 0 ≤ r.losses ∧ ∀ f, r.finish = some f → 0 ≤ f := by
  unfold rowStep at h
  split at h
  · exact absurd h (by simp)
  · split at h
    · exact absurd h (by simp)
    · split at h
      · exact absurd h (by simp)
      · obtain rfl := Option.some.inj h
        obtain ⟨h1, h2⟩ := @resolveWL_nonneg recordIdx row
          (directOf winsIdx row) (directOf lossesIdx row)
          (fun x => directOf_nonneg) (fun x => directOf_nonneg)
        exact ⟨h1, h2, fun f hf => directOf_nonneg hf⟩

theorem mem_extract_inv {tables : List (List String × List (List String))}
    {fallback : String} {r : TournamentResult}
    (h : r ∈ extractResultsFromTables tables fallback) :
    0 ≤ r.wins ∧ 0 ≤ r.losses ∧ ∀ f, r.finish = some f → 0 ≤ f := by
  unfold extractResultsFromTables at h
  rw [List.mem_flatten] at h
  obtain ⟨l, hl, hr⟩ := h
  rw [List.mem_map] at hl
  obtain ⟨t, ht, rfl⟩ := hl
  obtain ⟨headers, rows⟩ := t
  unfold extractTable at hr
  split at hr
  · simp at hr
  · split at hr
    · rw [List.mem_filterMap] at hr
      obtain ⟨row, hrow, hstep⟩ := hr
      exact rowStep_some_inv hstep
    · simp at hr

theorem intStr_ne_empty (n : ℤ) : intStr n ≠ "" := by
  unfold intStr
  split
  · intro h
    exact absurd (congrArg String.data h) (by simp)
  · intro h
    exact natStr_ne_nil n.natAbs (by simpa using congrArg String.data h)

theorem loadFinish_intStr (n : ℤ) : loadFinish (intStr n) = some (some n) := by
  unfold loadFinish
  rw [if_neg (intStr_ne_empty n), pyInt_intStr]
  rfl

theorem loadRow_writeRow {r : TournamentResult} (hclub : pyStrip r.club = r.club)
    (htourn : pyStrip r.tournament = r.tournament) (hdate : r.date.Valid) :
    loadRow (writeRow r) = some r := by
  obtain ⟨d, club, tourn, finish, wins, losses⟩ := r
  simp only at hclub htourn hdate
  unfold writeRow loadRow
  dsimp only
  rw [parseDate_isoformat d hdate, pyInt_intStr, pyInt_intStr]
  cases finish with
  | none =>
    rw [show loadFinish "" = some none from rfl]
    rw [hclub, htourn]
  | some n =>
    rw [loadFinish_intStr]
    rw [hclub, htourn]

theorem loadRows_map_writeRow {rs : List TournamentResult}
    (h : ∀ r ∈ rs, pyStrip r.club = r.club ∧ pyStrip r.tournament = r.tournament ∧
      r.date.Valid) :
    loadRows (rs.map writeRow) = some rs := by
  induction rs with
  | nil => rfl
  | cons r rest ih =>
    obtain ⟨h1, h2, h3⟩ := h r (List.mem_cons_self r rest)
    show (match loadRow (writeRow r), loadRows (rest.map writeRow) with
      | some t, some ts => some (t :: ts)
      | _, _ => none) = some (r :: rest)
    rw [loadRow_writeRow h1 h2 h3, ih (fun x hx => h x (List.mem_cons_of_mem r hx))]

theorem loadRow_fields {row : CsvRow} {r : TournamentResult}
    (h : loadRow row = some r) :
    pyInt row.wins = some r.wins ∧ pyInt row.losses = some r.losses ∧
      loadFinish row.finish = some r.finish := by
  unfold loadRow at h
  split at h
  · exact absurd h (by simp)
  · split at h
    · next hf hw hl =>
      obtain rfl := Option.some.inj h
      exact ⟨hw, hl, hf⟩
    · exact absurd h (by simp)

theorem loadRows_mem {rows : List CsvRow} {rs : List TournamentResult}
    (h : loadRows rows = some rs) {r : TournamentResult} (hr : r ∈ rs) :
    ∃ row ∈ rows, loadRow row = some r := by
  induction rows generalizing rs with
  | nil =>
    obtain rfl := Option.some.inj h
    simp at hr
  | cons row rest ih =>
    unfold loadRows at h
    split at h
    · next t ts hT hTs =>
      obtain rfl := Option.some.inj h
      rcases List.mem_cons.mp hr with rfl | hr
      · exact ⟨row, List.mem_cons_self row rest, hT⟩
      · obtain ⟨row2, hrow2, hr2⟩ := ih hTs hr
        exact ⟨row2, List.mem_cons_of_mem row hrow2, hr2⟩
    · exact absurd h (by simp)

/-- C8: a `ClubSummary` with zero wins and zero losses has `win_pct` 0.0
(total function, no division-by-zero error), and whenever the combined
game count is positive, `win_pct = wins / (wins + losses)`. -/
theorem c8_winPct_safe (s : ClubSummary) :
    (s.wins = 0 → s.losses = 0 → winPct s = 0) ∧
      (0 < s.wins + s.losses →
        winPct s = (s.wins : ℚ) / ((s.wins : ℚ) + (s.losses : ℚ))) := by
  constructor
  · intro h1 h2
    unfold winPct
    rw [if_pos (by omega)]
  · intro h
    unfold winPct
    rw [if_neg (by omega)]

theorem c8_winPct_safe_witness :
    winPct ⟨"A", 0, 0, 0, []⟩ = 0 ∧
      winPct ⟨"B", 1, 2, 1, []⟩ = ((2 : ℤ) : ℚ) / (((2 : ℤ) : ℚ) + ((1 : ℤ) : ℚ)) :=
  ⟨(c8_winPct_safe ⟨"A", 0, 0, 0, []⟩).1 rfl rfl,
    (c8_winPct_safe ⟨"B", 1, 2, 1, []⟩).2 (by decide)⟩

/-- C9: with no start date but an explicit end date, `determine_weekend`
ignores the end entirely and returns the default Saturday window. -/
theorem c9_end_date_ignored (dates : List ℤ) (e : ℤ) :
    determineWeekend none (some e) dates = determineWeekend none none dates :=
  rfl

/-- C2: `determine_weekend` returns `(start, start + 1)` when only a start
is given, passes both dates through when both are given, and otherwise
returns `(S, S + 1)` where `S` is the most recent Saturday (weekday 5) on
or before the maximum date of the non-empty result list; in particular a
latest-Wednesday dataset (weekday 2) gets the preceding Saturday. -/
theorem c2_determine_weekend (dates : List ℤ) (hne : dates ≠ []) (s e : ℤ) :
    determineWeekend (some s) none dates = (s, s + 1) ∧
    determineWeekend (some s) (some e) dates = (s, e) ∧
    (determineWeekend none none dates).2 = (determineWeekend none none dates).1 + 1 ∧
    weekdayOf (determineWeekend none none dates).1 = 5 ∧
    (determineWeekend none none dates).1 ≤ listMax dates ∧
    listMax dates ∈ dates ∧ (∀ d ∈ dates, d ≤ listMax dates) ∧
    (∀ t : ℤ, weekdayOf t = 5 → t ≤ listMax dates →
      t ≤ (determineWeekend none none dates).1) ∧
    (weekdayOf (listMax dates) = 2 →
      (determineWeekend none none dates).1 = listMax dates - 4) := by
  have hw : determineWeekend none none dates =
      (listMax dates - (((listMax dates + 6) % 7 - 5) % 7),
        listMax dates - (((listMax dates + 6) % 7 - 5) % 7) + 1) := rfl
  rw [hw]
  unfold weekdayOf
  refine ⟨rfl, rfl, rfl, by omega, by omega, listMax_mem hne,
    fun d hd => le_listMax hd, ?_, ?_⟩
  · intro t ht1 ht2
    simp only
    omega
  · intro h
    simp only
    omega

theorem c2_determine_weekend_witness :
    determineWeekend (some 10) none [3] = (10, 11) ∧
    determineWeekend (some 10) (some 20) [3] = (10, 20) ∧
    weekdayOf (determineWeekend none none [3]).1 = 5 ∧
    weekdayOf (listMax [3]) = 2 ∧
    (determineWeekend none none [3]).1 = listMax [3] - 4 ∧
    (-8 : ℤ) ≤ (determineWeekend none none [3]).1 := by
  have h := c2_determine_weekend [3] (by simp) 10 20
  exact ⟨h.1, h.2.1, h.2.2.2.1, by decide,
    h.2.2.2.2.2.2.2.2 (by decide),
    h.2.2.2.2.2.2.2.1 (-8) (by decide) (by decide)⟩

/-- C3: the table with headers Date/Team/Place/Record and the single row
2024-03-02 / Aces / 2nd / 10-3 yields exactly one record with club Aces,
finish 2, wins 10, losses 3 and the fallback tournament title.  (The
Place column also matches the losses candidate list, but the record
column replaces that direct parse.) -/
theorem c3_example_extraction (T : String) :
    extractResultsFromTables
      [(["Date", "Team", "Place", "Record"],
        [["2024-03-02", "Aces", "2nd", "10-3"]])] T =
      [{ date := ⟨2024, 3, 2⟩, club := "Aces", tournament := T,
         finish := some 2, wins := 10, losses := 3 }] := by
  rfl

/-- C1: `rank_clubs` returns a permutation of its input sorted by the
composite key — win percentage descending, then total wins descending,
then average finish ascending with missing finishes treated as plus
infinity (hence sorted last among such ties), then club name ascending;
the key order is total and transitive, two summaries comparable both ways
share a club name (so it is a strict total order on summaries with
distinct club names), and the underlying merge sort is stable. -/
theorem c1_rank_clubs_spec (l : List ClubSummary) :
    (rank_clubs l).Perm l ∧
    (rank_clubs l).Pairwise keyLE ∧
    (∀ a b : ClubSummary, keyLE a b ↔ (winPct b < winPct a ∨
      (winPct a = winPct b ∧ (b.wins < a.wins ∨ (a.wins = b.wins ∧
        (avgKey a < avgKey b ∨ (avgKey a = avgKey b ∧ a.club ≤ b.club))))))) ∧
    (∀ a b : ClubSummary, keyLE a b ∨ keyLE b a) ∧
    (∀ a b : ClubSummary, keyLE a b → keyLE b a → a.club = b.club) ∧
    (∀ s : ClubSummary, s.finishes = [] → ∀ t, avgKey t ≤ avgKey s) ∧
    (∀ a b : ClubSummary, sortKey a = sortKey b → [a, b].Sublist l →
      [a, b].Sublist (rank_clubs l)) := by
  refine ⟨List.mergeSort_perm l _,
    (List.sorted_mergeSort leB_trans leB_total l).imp
      (fun h => of_decide_eq_true h),
    keyLE_iff, keyLE_total,
    fun a b h1 h2 => club_eq_of_sortKey_eq (sortKey_eq_of_antisymm h1 h2),
    ?_, ?_⟩
  · intro s hs t
    have : avgKey s = ⊤ := by
      unfold avgKey avgFinish
      rw [hs]
    rw [this]
    exact le_top
  · intro a b hab hsub
    exact List.sublist_mergeSort leB_trans leB_total
      (List.pairwise_pair.mpr (decide_eq_true (le_of_eq hab))) hsub

theorem c1_rank_clubs_spec_witness :
    (rank_clubs [⟨"A", 1, 1, 0, [1]⟩, ⟨"B", 1, 0, 1, []⟩]).Perm
      [⟨"A", 1, 1, 0, [1]⟩, ⟨"B", 1, 0, 1, []⟩] ∧
    (⟨"A", 1, 1, 0, [1]⟩ : ClubSummary).club = "A" ∧
    avgKey ⟨"A", 1, 1, 0, [1]⟩ ≤ avgKey ⟨"B", 1, 0, 1, []⟩ ∧
    [(⟨"B", 1, 0, 1, []⟩ : ClubSummary), ⟨"B", 1, 0, 1, []⟩].Sublist
      (rank_clubs [⟨"B", 1, 0, 1, []⟩, ⟨"B", 1, 0, 1, []⟩]) := by
  refine ⟨(c1_rank_clubs_spec [⟨"A", 1, 1, 0, [1]⟩, ⟨"B", 1, 0, 1, []⟩]).1,
    ?_, ?_, ?_⟩
  · exact (c1_rank_clubs_spec []).2.2.2.2.1 ⟨"A", 1, 1, 0, [1]⟩
      ⟨"A", 1, 1, 0, [1]⟩ (le_refl _) (le_refl _)
  · exact (c1_rank_clubs_spec []).2.2.2.2.2.1 ⟨"B", 1, 0, 1, []⟩ rfl
      ⟨"A", 1, 1, 0, [1]⟩
  · exact (c1_rank_clubs_spec [⟨"B", 1, 0, 1, []⟩, ⟨"B", 1, 0, 1, []⟩]).2.2.2.2.2.2
      ⟨"B", 1, 0, 1, []⟩ ⟨"B", 1, 0, 1, []⟩ rfl (List.Sublist.refl _)

/-- C5: a string is accepted by the date parser iff it is the strict
YYYY-MM-DD rendering of a valid calendar date (four-digit year, two-digit
month and day, hyphen-separated), and during extraction a leading row
whose date cell does not parse is dropped without affecting the records
produced from the remaining rows. -/
theorem c5_strict_date_parsing :
    (∀ (s : String) (d : Date), parseDate s = some d ↔ (d.Valid ∧ s = isoformat d)) ∧
    (∀ (fallback : String) (headers : List String) (row : List String)
      (rest : List (List String)),
      (∀ i, indexFor headers ["date"] = some i → parseDate (cell row i) = none) →
      extractTable fallback (headers, row :: rest) =
        extractTable fallback (headers, rest)) := by
  constructor
  · intro s d
    constructor
    · exact parseDate_sound
    · rintro ⟨hv, rfl⟩
      exact parseDate_isoformat d hv
  · intro fallback headers row rest h
    cases hd : indexFor headers ["date"] with
    | none =>
      rw [extractTable_of_no_anchor fallback (Or.inl hd),
        extractTable_of_no_anchor fallback (Or.inl hd)]
    | some di =>
      cases hc : indexFor headers ["club", "team"] with
      | none =>
        rw [extractTable_of_no_anchor fallback (Or.inr hc),
          extractTable_of_no_anchor fallback (Or.inr hc)]
      | some ci =>
        rw [extractTable_eq_filterMap fallback hd hc,
          extractTable_eq_filterMap fallback hd hc]
        rw [List.filterMap_cons, rowStep_none_badDate (h di hd)]

theorem c5_strict_date_parsing_witness :
    parseDate "2024-03-02" = some ⟨2024, 3, 2⟩ ∧
    extractTable "T" (["Date", "Club"], [["bad date", "A"], ["2024-03-02", "B"]]) =
      extractTable "T" (["Date", "Club"], [["2024-03-02", "B"]]) := by
  constructor
  · exact (c5_strict_date_parsing.1 "2024-03-02" ⟨2024, 3, 2⟩).mpr
      ⟨by decide, by decide⟩
  · refine c5_strict_date_parsing.2 "T" ["Date", "Club"] ["bad date", "A"]
      [["2024-03-02", "B"]] ?_
    intro i hi
    have h0 : indexFor ["Date", "Club"] ["date"] = some 0 := by decide
    rw [h0] at hi
    obtain rfl := Option.some.inj hi
    decide

/-- C7: a table without a date or club/team anchor column contributes no
records; with both anchors the table's output is exactly the per-row
filter-map of the loop body, in which a short row, an unparsable date or
an all-whitespace club cell yields `none` (silently skipped), and a
record is emitted for a row exactly when the loop body succeeds on that
row — no per-row anomaly aborts the rest of the table. -/
theorem c7_row_admission :
    (∀ (fallback : String) (headers : List String) (rows : List (List String)),
      (indexFor headers ["date"] = none ∨ indexFor headers ["club", "team"] = none) →
      extractTable fallback (headers, rows) = []) ∧
    (∀ (fallback : String) (headers : List String) (rows : List (List String))
      (di ci : ℕ), indexFor headers ["date"] = some di →
      indexFor headers ["club", "team"] = some ci →
      extractTable fallback (headers, rows) = rows.filterMap
        (rowStep fallback headers.length di ci
          (indexFor headers ["tournament", "event", "division"])
          (indexFor headers ["finish", "place", "rank"])
          (indexFor headers ["wins", "win", "w"])
          (indexFor headers ["losses", "loss", "l"])
          (indexFor headers ["record", "win-loss", "w-l"]))) ∧
    (∀ (fallback : String) (ncols : ℕ) (dateIdx clubIdx : ℕ)
      (tournIdx finishIdx winsIdx lossesIdx recordIdx : Option ℕ)
      (row : List String),
      (row.length < ncols → rowStep fallback ncols dateIdx clubIdx tournIdx
        finishIdx winsIdx lossesIdx recordIdx row = none) ∧
      (parseDate (cell row dateIdx) = none → rowStep fallback ncols dateIdx
        clubIdx tournIdx finishIdx winsIdx lossesIdx recordIdx row = none) ∧
      (pyStrip (cell row clubIdx) = "" → rowStep fallback ncols dateIdx
        clubIdx tournIdx finishIdx winsIdx lossesIdx recordIdx row = none)) ∧
    (∀ (fallback : String) (ncols : ℕ) (dateIdx clubIdx : ℕ)
      (tournIdx finishIdx winsIdx lossesIdx recordIdx : Option ℕ)
      (rows : List (List String)) (r : TournamentResult),
      r ∈ rows.filterMap (rowStep fallback ncols dateIdx clubIdx tournIdx
        finishIdx winsIdx lossesIdx recordIdx) ↔
      ∃ row ∈ rows, rowStep fallback ncols dateIdx clubIdx tournIdx finishIdx
        winsIdx lossesIdx recordIdx row = some r) := by
  refine ⟨fun fallback headers rows h => extractTable_of_no_anchor fallback h,
    fun fallback headers rows di ci hd hc => extractTable_eq_filterMap fallback hd hc,
    fun fallback ncols dateIdx clubIdx tournIdx finishIdx winsIdx lossesIdx
      recordIdx row => ⟨fun h => rowStep_none_short h,
      fun h => rowStep_none_badDate h, fun h => rowStep_none_emptyClub h⟩,
    fun fallback ncols dateIdx clubIdx tournIdx finishIdx winsIdx lossesIdx
      recordIdx rows r => List.mem_filterMap⟩

theorem c7_row_admission_witness :
    extractTable "T" (["When", "Who"], [["2024-03-02", "Aces"]]) = [] ∧
    rowStep "T" 2 0 1 none none none none none ["2024-03-02"] = none ∧
    rowStep "T" 2 0 1 none none none none none ["oops", "Aces"] = none ∧
    rowStep "T" 2 0 1 none none none none none ["2024-03-02", "  "] = none := by
  refine ⟨c7_row_admission.1 "T" ["When", "Who"] [["2024-03-02", "Aces"]]
      (Or.inl (by decide)), ?_, ?_, ?_⟩
  · exact (c7_row_admission.2.2.1 "T" 2 0 1 none none none none none
      ["2024-03-02"]).1 (by decide)
  · exact (c7_row_admission.2.2.1 "T" 2 0 1 none none none none none
      ["oops", "Aces"]).2.1 (by decide)
  · exact (c7_row_admission.2.2.1 "T" 2 0 1 none none none none none
      ["2024-03-02", "  "]).2.2 (by decide)

theorem resolveWL_replaces {ir : ℕ} {row : List String} {w0 l0 : Option ℤ}
    {a b : ℕ} (hnone : w0 = none ∨ l0 = none)
    (hrec : parseRecord (cell row ir) = some (a, b)) :
    resolveWL (some ir) row w0 l0 = (some (a : ℤ), some (b : ℤ)) := by
  show (if w0.isNone || l0.isNone then
      match parseRecord (cell row ir) with
      | some (a, b) => (some (a : ℤ), some (b : ℤ))
      | none => (w0, l0)
    else (w0, l0)) = (some (a : ℤ), some (b : ℤ))
  rw [if_pos (by rcases hnone with rfl | rfl <;> simp), hrec]

theorem rowStep_some_fields {fallback : String} {ncols : ℕ}
    {dateIdx clubIdx : ℕ}
    {tournIdx finishIdx winsIdx lossesIdx recordIdx : Option ℕ}
    {row : List String} {r : TournamentResult}
    (h : rowStep fallback ncols dateIdx clubIdx tournIdx finishIdx winsIdx
      lossesIdx recordIdx row = some r) :
    r.wins = (resolveWL recordIdx row (directOf winsIdx row)
      (directOf lossesIdx row)).1.getD 0 ∧
    r.losses = (resolveWL recordIdx row (directOf winsIdx row)
      (directOf lossesIdx row)).2.getD 0 := by
  unfold rowStep at h
  split at h
  · exact absurd h (by simp)
  · split at h
    · exact absurd h (by simp)
    · split at h
      · exact absurd h (by simp)
      · obtain rfl := Option.some.inj h
        exact ⟨rfl, rfl⟩

/-- C10: when exactly one of wins/losses parses from its own column and
the record column matches the two-integer pattern, BOTH final values come
from the record column — the directly parsed one is discarded. -/
theorem c10_record_column_replaces_both (fallback : String) (ncols : ℕ)
    (dateIdx clubIdx : ℕ) (tournIdx finishIdx : Option ℕ) (iw il ir : ℕ)
    (row : List String) (a b : ℕ) (r : TournamentResult)
    (hrec : parseRecord (cell row ir) = some (a, b))
    (hstep : rowStep fallback ncols dateIdx clubIdx tournIdx finishIdx
      (some iw) (some il) (some ir) row = some r) :
    ((parseIntFirst (cell row iw)).isSome ∧ parseIntFirst (cell row il) = none →
      r.wins = (a : ℤ) ∧ r.losses = (b : ℤ)) ∧
    (parseIntFirst (cell row iw) = none ∧ (parseIntFirst (cell row il)).isSome →
      r.wins = (a : ℤ) ∧ r.losses = (b : ℤ)) := by
  obtain ⟨hw, hl⟩ := rowStep_some_fields hstep
  constructor
  · rintro ⟨-, hnone⟩
    have hd : directOf (some il) row = none := by
      show (parseIntFirst (cell row il)).map (fun n : ℕ => (n : ℤ)) = none
      rw [hnone]
      rfl
    rw [hw, hl, resolveWL_replaces (Or.inr hd) hrec]
    exact ⟨rfl, rfl⟩
  · rintro ⟨hnone, -⟩
    have hd : directOf (some iw) row = none := by
      show (parseIntFirst (cell row iw)).map (fun n : ℕ => (n : ℤ)) = none
      rw [hnone]
      rfl
    rw [hw, hl, resolveWL_replaces (Or.inl hd) hrec]
    exact ⟨rfl, rfl⟩

theorem c10_record_column_replaces_both_witness :
    rowStep "T" 4 0 1 none none (some 2) (some 1) (some 3)
      ["2024-03-02", "Aces", "7", "10-3"] =
      some ⟨⟨2024, 3, 2⟩, "Aces", "T", none, 10, 3⟩ ∧
    parseIntFirst (cell ["2024-03-02", "Aces", "7", "10-3"] 2) = some 7 ∧
    (⟨⟨2024, 3, 2⟩, "Aces", "T", none, 10, 3⟩ : TournamentResult).wins = 10 ∧
    (⟨⟨2024, 3, 2⟩, "Aces", "T", none, 10, 3⟩ : TournamentResult).losses = 3 := by
  have hstep : rowStep "T" 4 0 1 none none (some 2) (some 1) (some 3)
      ["2024-03-02", "Aces", "7", "10-3"] =
      some ⟨⟨2024, 3, 2⟩, "Aces", "T", none, 10, 3⟩ := rfl
  have happ := (c10_record_column_replaces_both "T" 4 0 1 none none 2 1 3
    ["2024-03-02", "Aces", "7", "10-3"] 10 3
    ⟨⟨2024, 3, 2⟩, "Aces", "T", none, 10, 3⟩ (by decide) hstep).1
    ⟨by decide, by decide⟩
  exact ⟨hstep, by decide, happ.1, happ.2⟩

/-- C4 counterexample: the claim that every ingested record has
non-negative wins/losses and a strictly positive finish (when present)
fails — a finish cell "0" extracts to finish 0, which is not positive. -/
theorem c4_ingestion_invariant_counterexample :
    ¬ ((∀ (tables : List (List String × List (List String))) (fb : String)
          (r : TournamentResult), r ∈ extractResultsFromTables tables fb →
          0 ≤ r.wins ∧ 0 ≤ r.losses ∧ ∀ f, r.finish = some f → 0 < f) ∧
        (∀ (rows : List CsvRow) (rs : List TournamentResult),
          loadRows rows = some rs → ∀ r ∈ rs,
          0 ≤ r.wins ∧ 0 ≤ r.losses ∧ ∀ f, r.finish = some f → 0 < f)) := by
  intro h
  have h0 := (h.1 [(["Date", "Club", "Finish"], [["2024-03-02", "Aces", "0"]])]
    "T" ⟨⟨2024, 3, 2⟩, "Aces", "T", some 0, 0, 0⟩ (by decide)).2.2 0 rfl
  exact absurd h0 (by decide)

/-- C4 amended: extraction-produced records always have `wins ≥ 0`,
`losses ≥ 0` and, when present, `finish ≥ 0` (zero is possible); the CSV
loader performs no validation — each loaded record carries exactly the
integers its row cells denote, so the invariant holds for loaded records
precisely when the cells satisfy it. -/
theorem c4_ingestion_invariant_amended :
    (∀ (tables : List (List String × List (List String))) (fb : String)
      (r : TournamentResult), r ∈ extractResultsFromTables tables fb →
      0 ≤ r.wins ∧ 0 ≤ r.losses ∧ ∀ f, r.finish = some f → 0 ≤ f) ∧
    (∀ (rows : List CsvRow) (rs : List TournamentResult),
      loadRows rows = some rs → ∀ r ∈ rs, ∃ row ∈ rows,
      pyInt row.wins = some r.wins ∧ pyInt row.losses = some r.losses ∧
      loadFinish row.finish = some r.finish) := by
  refine ⟨fun tables fb r h => mem_extract_inv h, ?_⟩
  intro rows rs h r hr
  obtain ⟨row, hrow, hl⟩ := loadRows_mem h hr
  exact ⟨row, hrow, loadRow_fields hl⟩

theorem c4_ingestion_invariant_amended_witness :
    (0 ≤ ((⟨⟨2024, 3, 2⟩, "Aces", "T", some 0, 0, 0⟩ : TournamentResult)).wins ∧
      ∀ f, (⟨⟨2024, 3, 2⟩, "Aces", "T", some 0, 0, 0⟩ :
        TournamentResult).finish = some f → 0 ≤ f) ∧
    (∃ row ∈ [(⟨"2024-03-02", "A", "T", "", "3", "4"⟩ : CsvRow)],
      pyInt row.wins = some 3 ∧ pyInt row.losses = some 4 ∧
      loadFinish row.finish = some none) := by
  constructor
  · have h := (c4_ingestion_invariant_amended.1
      [(["Date", "Club", "Finish"], [["2024-03-02", "Aces", "0"]])] "T"
      ⟨⟨2024, 3, 2⟩, "Aces", "T", some 0, 0, 0⟩ (by decide))
    exact ⟨h.1, h.2.2⟩
  · exact c4_ingestion_invariant_amended.2
      [⟨"2024-03-02", "A", "T", "", "3", "4"⟩]
      [⟨⟨2024, 3, 2⟩, "A", "T", none, 3, 4⟩] (by decide)
      ⟨⟨2024, 3, 2⟩, "A", "T", none, 3, 4⟩ (by decide)

/-- C6: a record list whose club and tournament fields are already
trimmed (as every extracted record is) and whose dates are valid
round-trips unchanged, in order, through the scrape-output CSV writer
and the CSV loader, with date, club, tournament, finish (including
absence), wins and losses all preserved. -/
theorem c6_csv_roundtrip (rs : List TournamentResult)
    (h : ∀ r ∈ rs, pyStrip r.club = r.club ∧ pyStrip r.tournament = r.tournament ∧
      r.date.Valid) :
    loadRows (rs.map writeRow) = some rs :=
  loadRows_map_writeRow h

theorem c6_csv_roundtrip_witness :
    loadRows (([⟨⟨2024, 3, 2⟩, "Aces", "Spring Open", some 2, 10, 3⟩,
      ⟨⟨2023, 12, 31⟩, "Bees", "T", none, 0, 4⟩] :
        List TournamentResult).map writeRow) =
      some [⟨⟨2024, 3, 2⟩, "Aces", "Spring Open", some 2, 10, 3⟩,
        ⟨⟨2023, 12, 31⟩, "Bees", "T", none, 0, 4⟩] :=
  c6_csv_roundtrip _ (by decide)
